import Mathlib

/-!
Verification of the k8s watch-event service (storage, transformer, query API).

The development shallowly embeds the Go sources:
* `internal/watch/models` (event transformer, pluralization, object cleaning,
  involved-object extraction),
* `internal/watch/storage` (BadgerDB store: three key regions, atomic batch
  write, range/object/reference queries),
* `internal/watch/api` (HTTP handlers: limit clamping, two-section history,
  health),
* `internal/watch/config` (configuration defaults),
* `internal/tools/pod_volume.go` (pod-issue classifier predicate).

Modelling conventions:
* Machine integers are `Nat`/`Int`; Go `int` values that the code compares
  against `0` are `Int`.
* Timestamps are `Nat` instants.  BadgerDB iterates keys in lexicographic
  byte order; since the serialized keys embed fixed-width RFC-3339
  timestamps and `/`-separated segments, that byte order coincides with the
  structured lexicographic order used here (timestamp first inside a
  region), which is what all queries rely on.
* The serialized value stored at a key is modelled by the `AuditEvent`
  itself: `json.Marshal`/`json.Unmarshal` form a round trip, so equality of
  serialized byte strings is equality of events.
* Kubernetes `unstructured.Unstructured` objects are JSON-like trees
  (`KValue`); the top-level `.Object` map is `KObj`.
-/

set_option maxRecDepth 4000

namespace Ripkit

/-- JSON-like value tree modelling `map[string]any` contents of an
`unstructured.Unstructured` Kubernetes object. -/
inductive KValue where
  | null : KValue
  | bool (b : Bool) : KValue
  | num (n : Int) : KValue
  | str (s : String) : KValue
  | arr (items : List KValue) : KValue
  | obj (fields : List (String × KValue)) : KValue

/-- The top-level `unstructured.Unstructured.Object` map. -/
abbrev KObj := List (String × KValue)

/-- First-match association lookup, modelling Go map indexing
(`m[key]`; Go maps have unique keys, so first match is the match). -/
def kvLookup : KObj → String → Option KValue
  | [], _ => none
  | (k, v) :: rest, key => if k = key then some v else kvLookup rest key

/-- Go `delete(m, key)` on a string-keyed map. -/
def delKey (m : KObj) (k : String) : KObj :=
  m.filter (fun p => !(p.1 == k))

/-- Replacing the value stored at `k` (models mutating the nested map that
Go reaches by reference through `cleaned["metadata"]`). -/
def setField (m : KObj) (k : String) (v : KValue) : KObj :=
  m.map (fun p => if p.1 = k then (p.1, v) else p)

/-- String field of a nested map, `""` when absent or not a string —
the behaviour of `unstructured.NestedString` as used by the source. -/
def lookupStr (m : KObj) (k : String) : String :=
  match kvLookup m k with
  | some (KValue.str s) => s
  | _ => ""

/-- `obj.GetKind()`. -/
def getKind (o : KObj) : String := lookupStr o "kind"

/-- The `metadata` sub-map, `[]` when absent or not a map. -/
def getMeta (o : KObj) : KObj :=
  match kvLookup o "metadata" with
  | some (KValue.obj m) => m
  | _ => []

/-- `obj.GetName()`. -/
def getName (o : KObj) : String := lookupStr (getMeta o) "name"

/-- `obj.GetNamespace()`. -/
def getNamespace (o : KObj) : String := lookupStr (getMeta o) "namespace"

/-- `obj.GetUID()`. -/
def getUID (o : KObj) : String := lookupStr (getMeta o) "uid"

/-- `obj.GetAnnotations()`: the string-valued entries of
`metadata.annotations`. -/
def getAnnots (o : KObj) : List (String × String) :=
  match kvLookup (getMeta o) "annotations" with
  | some (KValue.obj m) =>
      m.filterMap (fun p =>
        match p.2 with
        | KValue.str s => some (p.1, s)
        | _ => none)
  | _ => []

/-! ### String helpers (models of `strings.*` used by the source) -/

/-- `listStarts l p`: `p` is an initial run of `l`. -/
def listStarts : List Char → List Char → Bool
  | _, [] => true
  | [], _ :: _ => false
  | c :: cs, d :: ds => c == d && listStarts cs ds

/-- `strings.HasSuffix`. -/
def strHasSuffix (s suf : String) : Bool :=
  listStarts s.data.reverse suf.data.reverse

/-- `strings.TrimSuffix`. -/
def strTrimSuffix (s suf : String) : String :=
  if strHasSuffix s suf then ⟨s.data.take (s.data.length - suf.data.length)⟩ else s

/-- `strings.ToLower` (ASCII, which is all the source feeds it). -/
def strToLower (s : String) : String := ⟨s.data.map Char.toLower⟩

/-- Upper-casing the first byte: `strings.ToUpper(s[:1]) + s[1:]`, and also
`strings.Title` on the single-word verbs the source passes. -/
def strCapitalize (s : String) : String :=
  match s.data with
  | [] => s
  | c :: cs => ⟨Char.toUpper c :: cs⟩

/-- `hasSubList p l`: `p` occurs contiguously inside `l`
(`strings.Contains` on char lists). -/
def hasSubList (p : List Char) : List Char → Bool
  | [] => listStarts [] p
  | c :: cs => listStarts (c :: cs) p || hasSubList p cs

/-- `strings.Contains s pat`. -/
def strHas (s pat : String) : Bool := hasSubList pat.data s.data

/-! ### Pluralization (`internal/watch/models` and `internal/watch/api`) -/

/-- First-match lookup in a literal table (a Go map literal). -/
def lookupTable : List (String × String) → String → Option String
  | [], _ => none
  | (k, v) :: rest, key => if k = key then some v else lookupTable rest key

/-- The `irregularPlurals` table of `kindToResourceType`. -/
def irregularPlurals : List (String × String) :=
  [ ("endpoints", "endpoints"),
    ("ingress", "ingresses"),
    ("networkpolicy", "networkpolicies"),
    ("poddisruptionbudget", "poddisruptionbudgets"),
    ("priorityclass", "priorityclasses"),
    ("storageclass", "storageclasses") ]

/-- `kindToResourceType` (server.go, models): kind → plural resource type. -/
def kindToResourceType (kind : String) : String :=
  let lower := strToLower kind
  match lookupTable irregularPlurals lower with
  | some plural => plural
  | none =>
      if strHasSuffix lower "s" then lower ++ "es"
      else if strHasSuffix lower "y" then strTrimSuffix lower "y" ++ "ies"
      else lower ++ "s"

/-- The `irregularSingulars` table of `resourceTypeToKind`. -/
def irregularSingulars : List (String × String) :=
  [ ("endpoints", "Endpoints"),
    ("ingresses", "Ingress"),
    ("networkpolicies", "NetworkPolicy"),
    ("poddisruptionbudgets", "PodDisruptionBudget"),
    ("priorityclasses", "PriorityClass"),
    ("storageclasses", "StorageClass"),
    ("customresourcedefinitions", "CustomResourceDefinition") ]

/-- `resourceTypeToKind` (server.go lines 199–233): plural lowercase
resource type → capitalized Kind. -/
def resourceTypeToKind (resourceType : String) : String :=
  match lookupTable irregularSingulars resourceType with
  | some singular => singular
  | none =>
      let s1 := resourceType
      let s2 :=
        if strHasSuffix s1 "ies" then strTrimSuffix s1 "ies" ++ "y"
        else if strHasSuffix s1 "ses" then strTrimSuffix s1 "ses"
        else if strHasSuffix s1 "es" then strTrimSuffix s1 "es"
        else if strHasSuffix s1 "s" then strTrimSuffix s1 "s"
        else s1
      if s2.data.length > 0 then strCapitalize s2 else s2

/-! ### The audit event model and transformer (`internal/watch/models`) -/

/-- The canonical audit-event record (`models.AuditEvent`).  `nspace` is the
Go `Namespace` field (`namespace` is a Lean keyword); `annots` is the Go
`Annotations` field. -/
structure AuditEvent where
  timestamp : Nat
  verb : String
  user : String
  nspace : String
  resourceType : String
  resourceName : String
  responseStatus : Nat
  message : String
  objectChanges : KObj
  annots : List (String × String)
  stage : String
  requestURI : String
  sourceIPs : List String

/-- `mapEventTypeToVerb`: Go `EventType` is a string type. -/
def mapEventTypeToVerb (eventType : String) : String :=
  if eventType = "ADDED" then "create"
  else if eventType = "MODIFIED" then "update"
  else if eventType = "DELETED" then "delete"
  else "unknown"

/-- `cleanObject` (server.go lines 367–381): deep-copies the object (purity
models the `DeepCopy`) and deletes five noisy `metadata` fields. -/
def cleanObject (o : KObj) : KObj :=
  match kvLookup o "metadata" with
  | some (KValue.obj m) =>
      setField o "metadata"
        (KValue.obj
          (delKey (delKey (delKey (delKey (delKey m
            "managedFields") "resourceVersion") "generation") "selfLink") "uid"))
  | _ => o

/-- The five metadata keys `cleanObject` removes. -/
def strippedKeys : List String :=
  ["managedFields", "resourceVersion", "generation", "selfLink", "uid"]

/-- Lookup of `metadata.k` through the top-level map. -/
def metaLookup (o : KObj) (k : String) : Option KValue :=
  match kvLookup o "metadata" with
  | some (KValue.obj m) => kvLookup m k
  | _ => none

/-- `formatMessage`. -/
def formatMessage (verb resourceType nspace name : String) : String :=
  if nspace = "" then strCapitalize verb ++ " " ++ resourceType ++ " " ++ name
  else strCapitalize verb ++ " " ++ resourceType ++ " " ++ nspace ++ "/" ++ name

/-- `buildRequestURI`. -/
def buildRequestURI (nspace resourceType name : String) : String :=
  if nspace = "" then "/api/v1/" ++ resourceType ++ "/" ++ name
  else "/api/v1/namespaces/" ++ nspace ++ "/" ++ resourceType ++ "/" ++ name

/-- `TransformWatchEvent` (a non-nil object; `now` is the `time.Now()`
instant assigned at transformation time). -/
def transformWatchEvent (now : Nat) (o : KObj) (eventType : String) : AuditEvent :=
  let verb := mapEventTypeToVerb eventType
  let nspace := getNamespace o
  let name := getName o
  let kind := getKind o
  let resourceType := kindToResourceType kind
  { timestamp := now
    verb := verb
    user := "system:k8s-watcher"
    nspace := nspace
    resourceType := resourceType
    resourceName := name
    responseStatus := 200
    message := formatMessage verb resourceType nspace name
    objectChanges := cleanObject o
    annots := getAnnots o
    stage := "ResponseComplete"
    requestURI := buildRequestURI nspace resourceType name
    sourceIPs := [] }

/-- `models.ObjectReference`. -/
structure ObjectReference where
  kind : String
  nspace : String
  name : String
  uid : String

/-- `ExtractInvolvedObject` (server.go lines 403–429). -/
def extractInvolvedObject (o : KObj) : Option ObjectReference :=
  if getKind o ≠ "Event" then none
  else
    match kvLookup o "involvedObject" with
    | some (KValue.obj m) =>
        let kind := lookupStr m "kind"
        let nspace := lookupStr m "namespace"
        let name := lookupStr m "name"
        let uid := lookupStr m "uid"
        if kind = "" ∨ name = "" then none
        else some { kind := kind, nspace := nspace, name := name, uid := uid }
    | _ => none

/-- `involvedObject.kind` as a string (empty when the sub-document is
absent, not a map, or the field is not a non-empty string). -/
def involvedKind (o : KObj) : String :=
  match kvLookup o "involvedObject" with
  | some (KValue.obj m) => lookupStr m "kind"
  | _ => ""

/-- `involvedObject.name`, as `involvedKind`. -/
def involvedName (o : KObj) : String :=
  match kvLookup o "involvedObject" with
  | some (KValue.obj m) => lookupStr m "name"
  | _ => ""

/-! ### The store (`internal/watch/storage`)

Keys are kept structured.  The Go code renders them as strings; the three
regions use distinct first segments (`eventRefs/`, `events/`, `objects/`)
and within a region the remaining `/`-separated segments compare
lexicographically, timestamps being fixed-width RFC-3339 strings. -/

/-- A BadgerDB key of one of the three index regions. -/
inductive IndexKey where
  | timeK (ts : Nat) (ns rt name uid : String) : IndexKey
  | objK (ns rt name : String) (ts : Nat) (uid : String) : IndexKey
  | refK (ns kind name : String) (ts : Nat) (uid : String) : IndexKey
deriving DecidableEq

/-- One stored entry: key, serialized value (modelled by the event itself)
and absolute expiry (`badger.Entry.ExpiresAt`). -/
structure Entry where
  key : IndexKey
  value : AuditEvent
  expiresAt : Nat

/-- The database as a bag of entries; readers iterate regions in key
order. -/
abbrev Store := List Entry

/-- `txn.SetEntry`: write-or-overwrite the entry at its key. -/
def setEntry (e : Entry) (s : Store) : Store :=
  e :: s.filter (fun x => !(x.key == e.key))

/-- Applying a write batch inside one transaction. -/
def applyBatch (s : Store) (b : List Entry) : Store :=
  b.foldl (fun st e => setEntry e st) s

/-- The batch of index entries `StoreEvent` writes for one event
(config.go lines 143–197): time index, object index, and — when the record
is an `events` record whose object yields an involved-object reference —
the cross-reference index.  All three share one serialized value and one
expiry `now + retentionDays * 24h`. -/
def storeBatch (now retentionDays : Nat) (event : AuditEvent) (o : KObj) : List Entry :=
  let expiresAt := now + retentionDays * 24 * 3600
  let uid := getUID o
  let timeE : Entry :=
    { key := IndexKey.timeK event.timestamp event.nspace event.resourceType event.resourceName uid
      value := event, expiresAt := expiresAt }
  let objE : Entry :=
    { key := IndexKey.objK event.nspace event.resourceType event.resourceName event.timestamp uid
      value := event, expiresAt := expiresAt }
  [timeE, objE] ++
    (if event.resourceType = "events" then
      match extractInvolvedObject o with
      | some r =>
          [{ key := IndexKey.refK r.nspace r.kind r.name event.timestamp uid
             value := event, expiresAt := expiresAt }]
      | none => []
    else [])

/-- `Store.StoreEvent`: one atomic `db.Update` transaction writing the
whole batch; a failing transaction leaves the store unchanged, so a
reader never sees a proper sub-batch. -/
def storeEvent (now retentionDays : Nat) (event : AuditEvent) (o : KObj) (s : Store) : Store :=
  applyBatch s (storeBatch now retentionDays event o)

/-- Folding a sequence of `StoreEvent` calls over the empty store. -/
def storeAll (now retentionDays : Nat) (inputs : List (AuditEvent × KObj)) : Store :=
  inputs.foldl (fun st p => storeEvent now retentionDays p.1 p.2 st) []

/-- The object-index key `storeEvent` derives for an input. -/
def objKeyOf (event : AuditEvent) (o : KObj) : IndexKey :=
  IndexKey.objK event.nspace event.resourceType event.resourceName event.timestamp (getUID o)

/-! #### Region iteration -/

/-- A parsed time-index entry: `events/{ts}/{ns}/{rt}/{name}/{uid}`. -/
structure TimeRec where
  ts : Nat
  ns : String
  rt : String
  name : String
  uid : String
  value : AuditEvent
  expiresAt : Nat

/-- A parsed object-index entry: `objects/{ns}/{rt}/{name}/{ts}/{uid}`. -/
structure ObjRec where
  ns : String
  rt : String
  name : String
  ts : Nat
  uid : String
  value : AuditEvent
  expiresAt : Nat

/-- A parsed cross-reference entry: `eventRefs/{ns}/{kind}/{name}/{ts}/{uid}`. -/
structure RefRec where
  ns : String
  kind : String
  name : String
  ts : Nat
  uid : String
  value : AuditEvent
  expiresAt : Nat

def toTimeRec (e : Entry) : Option TimeRec :=
  match e.key with
  | IndexKey.timeK ts ns rt name uid =>
      some { ts := ts, ns := ns, rt := rt, name := name, uid := uid
             value := e.value, expiresAt := e.expiresAt }
  | _ => none

def toObjRec (e : Entry) : Option ObjRec :=
  match e.key with
  | IndexKey.objK ns rt name ts uid =>
      some { ns := ns, rt := rt, name := name, ts := ts, uid := uid
             value := e.value, expiresAt := e.expiresAt }
  | _ => none

def toRefRec (e : Entry) : Option RefRec :=
  match e.key with
  | IndexKey.refK ns kind name ts uid =>
      some { ns := ns, kind := kind, name := name, ts := ts, uid := uid
             value := e.value, expiresAt := e.expiresAt }
  | _ => none

/-- Lexicographic key order of the `events/` region (timestamp segment
first; string segments compare bytewise). -/
def timeKeyTuple (e : TimeRec) : Nat ×ₗ (List Char ×ₗ (List Char ×ₗ (List Char ×ₗ List Char))) :=
  toLex (e.ts, toLex (e.ns.data, toLex (e.rt.data, toLex (e.name.data, e.uid.data))))

def timeLe (a b : TimeRec) : Prop := timeKeyTuple a ≤ timeKeyTuple b

instance : DecidableRel timeLe :=
  fun a b => inferInstanceAs (Decidable (timeKeyTuple a ≤ timeKeyTuple b))

instance : IsTotal TimeRec timeLe := ⟨fun a b => le_total (timeKeyTuple a) (timeKeyTuple b)⟩

instance : IsTrans TimeRec timeLe := ⟨fun _ _ _ h1 h2 => le_trans h1 h2⟩

/-- Lexicographic key order of the `objects/` region. -/
def objKeyTuple (e : ObjRec) : List Char ×ₗ (List Char ×ₗ (List Char ×ₗ (Nat ×ₗ List Char))) :=
  toLex (e.ns.data, toLex (e.rt.data, toLex (e.name.data, toLex (e.ts, e.uid.data))))

def objLe (a b : ObjRec) : Prop := objKeyTuple a ≤ objKeyTuple b

instance : DecidableRel objLe :=
  fun a b => inferInstanceAs (Decidable (objKeyTuple a ≤ objKeyTuple b))

instance : IsTotal ObjRec objLe := ⟨fun a b => le_total (objKeyTuple a) (objKeyTuple b)⟩

instance : IsTrans ObjRec objLe := ⟨fun _ _ _ h1 h2 => le_trans h1 h2⟩

/-- Lexicographic key order of the `eventRefs/` region. -/
def refKeyTuple (e : RefRec) : List Char ×ₗ (List Char ×ₗ (List Char ×ₗ (Nat ×ₗ List Char))) :=
  toLex (e.ns.data, toLex (e.kind.data, toLex (e.name.data, toLex (e.ts, e.uid.data))))

def refLe (a b : RefRec) : Prop := refKeyTuple a ≤ refKeyTuple b

instance : DecidableRel refLe :=
  fun a b => inferInstanceAs (Decidable (refKeyTuple a ≤ refKeyTuple b))

instance : IsTotal RefRec refLe := ⟨fun a b => le_total (refKeyTuple a) (refKeyTuple b)⟩

instance : IsTrans RefRec refLe := ⟨fun _ _ _ h1 h2 => le_trans h1 h2⟩

/-- The `events/` region in iteration (key) order. -/
def timeRegion (s : Store) : List TimeRec :=
  List.insertionSort timeLe (s.filterMap toTimeRec)

/-- The `objects/` region in iteration (key) order. -/
def objRegion (s : Store) : List ObjRec :=
  List.insertionSort objLe (s.filterMap toObjRec)

/-- The `eventRefs/` region in iteration (key) order. -/
def refRegion (s : Store) : List RefRec :=
  List.insertionSort refLe (s.filterMap toRefRec)

/-- `storage.QueryOptions`.  A Go zero `time.Time` (`IsZero`) is `none`. -/
structure QueryOptions where
  startTime : Option Nat
  endTime : Option Nat
  nspace : String
  resourceType : String
  resourceName : String
  verb : String
  user : String
  limit : Int

/-- The loop break on the end bound: `timestamp.After(opts.EndTime)` on a
sorted region makes a safe early exit. -/
def entryPastEnd (opts : QueryOptions) (e : TimeRec) : Bool :=
  match opts.endTime with
  | some te => decide (te < e.ts)
  | none => false

/-- The `continue` conditions of the loop, in source order: timestamp below
the start bound, then the key-segment filters (namespace, resourceType,
resourceName), then the value filters (verb, user). -/
def entrySkipped (opts : QueryOptions) (e : TimeRec) : Bool :=
  (match opts.startTime with | some t0 => decide (e.ts < t0) | none => false) ||
  (opts.nspace != "" && e.ns != opts.nspace) ||
  (opts.resourceType != "" && e.rt != opts.resourceType) ||
  (opts.resourceName != "" && e.name != opts.resourceName) ||
  (opts.verb != "" && e.value.verb != opts.verb) ||
  (opts.user != "" && e.value.user != opts.user)

/-- The iteration body of `Store.QueryEvents` (config.go lines 236–303):
stop at the limit, break past the end bound, skip filtered entries,
otherwise accept the deserialized value. -/
def queryLoop (opts : QueryOptions) (limit : Int) : List TimeRec → Nat → List AuditEvent
  | [], _ => []
  | e :: rest, count =>
      if limit ≤ (count : Int) then []
      else if entryPastEnd opts e then []
      else if entrySkipped opts e then queryLoop opts limit rest count
      else e.value :: queryLoop opts limit rest (count + 1)

/-- `Store.QueryEvents`: a non-positive limit falls back to 1000; with a
start bound the iterator seeks to `events/{start}` (drop the leading keys
below the bound); then the loop runs over the region. -/
def queryEvents (s : Store) (opts : QueryOptions) : List AuditEvent :=
  let limit : Int := if opts.limit ≤ 0 then 1000 else opts.limit
  let entries := timeRegion s
  let entries :=
    match opts.startTime with
    | none => entries
    | some t0 => entries.dropWhile (fun e => decide (e.ts < t0))
  queryLoop opts limit entries 0

/-- `Store.GetObjectHistory`: scan of `objects/{ns}/{rt}/{name}/`.  On the
sorted region the matching keys form one contiguous block, so the scan
returns exactly the filtered entries in region order. -/
def getObjectHistory (s : Store) (ns rt name : String) : List AuditEvent :=
  ((objRegion s).filter (fun e => e.ns == ns && e.rt == rt && e.name == name)).map
    (fun e => e.value)

/-- `Store.GetRelatedEvents`: scan of `eventRefs/{ns}/{kind}/{name}/`. -/
def getRelatedEvents (s : Store) (ns kind name : String) : List AuditEvent :=
  ((refRegion s).filter (fun e => e.ns == ns && e.kind == kind && e.name == name)).map
    (fun e => e.value)

/-! ### The query API (`internal/watch/api/server.go`) -/

/-- The limit computation of `handleQueryEvents` (lines 84–96): start from
the configured maximum; a parsed request limit replaces it only when
positive and strictly below it.  `none` models an unset `limit` parameter
(a malformed one is rejected with 400 before this point). -/
def effectiveLimit (maxLimit : Int) (requested : Option Int) : Int :=
  match requested with
  | none => maxLimit
  | some parsed => if 0 < parsed ∧ parsed < maxLimit then parsed else maxLimit

/-- The `X-Has-More` header value (line 113): `len(events) >= limit`. -/
def hasMore (returned : Nat) (limit : Int) : Bool := decide (limit ≤ (returned : Int))

/-- `api.ObjectEventsResponse`. -/
structure ObjectEventsResponse where
  nspace : String
  resourceType : String
  resourceName : String
  watchEvents : List AuditEvent
  relatedEvents : List AuditEvent

/-- Outcome of `handleObjectHistory` (the pure model has no store
errors). -/
inductive HistoryResult where
  | badRequest : HistoryResult
  | notFound : HistoryResult
  | ok (resp : ObjectEventsResponse) : HistoryResult

/-- `Server.handleObjectHistory` (lines 138–187): validate parameters,
collect the two sections, signal 404 only when both are empty. -/
def handleObjectHistory (s : Store) (nspace resourceType name : String) : HistoryResult :=
  if nspace = "" ∨ resourceType = "" ∨ name = "" then HistoryResult.badRequest
  else
    let watchEvents := getObjectHistory s nspace resourceType name
    let kind := resourceTypeToKind resourceType
    let relatedEvents := getRelatedEvents s nspace kind name
    if watchEvents.length = 0 ∧ relatedEvents.length = 0 then HistoryResult.notFound
    else
      HistoryResult.ok
        { nspace := nspace, resourceType := resourceType, resourceName := name
          watchEvents := watchEvents, relatedEvents := relatedEvents }

/-- The store handle held by the server; `isOpen` tracks whether
`Store.Close` has been called on the BadgerDB handle. -/
structure StoreHandle where
  entries : Store
  isOpen : Bool

/-- `api.Server`. -/
structure Server where
  store : StoreHandle
  maxLimit : Int

/-- An HTTP health reply. -/
structure HealthResponse where
  status : Nat
  body : List (String × String)

/-- `Server.handleHealth` (lines 190–196): writes 200 and a constant body;
it does not consult `srv.store` at all. -/
def handleHealth (srv : Server) : HealthResponse :=
  { status := 200, body := [("status", "healthy")] }

/-! ### Configuration (`internal/watch/config/config.go`) -/

/-- `config.ResourceWatch`. -/
structure ResourceWatch where
  group : String
  version : String
  kind : String
  plural : String
  namespaced : Bool

/-- `config.Config`. -/
structure Config where
  resources : List ResourceWatch
  discoverCRDs : Bool
  storagePath : String
  retentionDays : Int
  serverPort : Int
  maxQueryLimit : Int

/-- The `// Set defaults` block of `LoadConfig` (lines 41–54), applied to
the YAML-decoded struct.  Go YAML decoding leaves absent fields at their
zero values, so a file omitting a field reaches this block with `0`,
`""` or `false` there. -/
def applyDefaults (cfg : Config) : Config :=
  let c1 := if cfg.retentionDays = 0 then { cfg with retentionDays := 14 } else cfg
  let c2 := if c1.serverPort = 0 then { c1 with serverPort := 8080 } else c1
  let c3 := if c2.maxQueryLimit = 0 then { c2 with maxQueryLimit := 1000 } else c2
  if c3.storagePath = "" then { c3 with storagePath := "/data/watch-events" } else c3

/-- The decoded form of a configuration file that sets no field. -/
def zeroConfig : Config :=
  { resources := [], discoverCRDs := false, storagePath := ""
    retentionDays := 0, serverPort := 0, maxQueryLimit := 0 }

/-! ### Pod-issue classifier (`internal/tools/pod_volume.go`) -/

/-- The config/secret recognition predicate of `CheckPodIssues`
(lines 75–76).  The Go source reads
`Contains(combined, "configmap") || Contains(combined, "secret") && Contains(combined, "not found")`;
Go binds `&&` tighter than `||`, which is the grouping written here.
`combined` is the lowercased serialized event. -/
def isConfigIssue (combined : String) : Bool :=
  strHas combined "configmap" || (strHas combined "secret" && strHas combined "not found")

/-! ## Lemmas about the write batch (`Store.StoreEvent`) -/

/-- The entry belongs to the cross-reference region. -/
def isRefEntry (e : Entry) : Prop :=
  match e.key with
  | IndexKey.refK _ _ _ _ _ => True
  | _ => False

theorem mem_setEntry_self (e : Entry) (s : Store) : e ∈ setEntry e s :=
  List.mem_cons_self e _

theorem mem_setEntry_of_ne {x : Entry} {s : Store} (e : Entry)
    (hx : x ∈ s) (hk : x.key ≠ e.key) : x ∈ setEntry e s := by
  refine List.mem_cons_of_mem e (List.mem_filter.2 ⟨hx, ?_⟩)
  simp [hk]

theorem mem_of_mem_setEntry {x e : Entry} {s : Store}
    (h : x ∈ setEntry e s) : x = e ∨ x ∈ s := by
  rcases List.mem_cons.1 h with h1 | h1
  · exact Or.inl h1
  · exact Or.inr (List.mem_of_mem_filter h1)

theorem mem_of_mem_applyBatch {x : Entry} :
    ∀ (b : List Entry) (s : Store), x ∈ applyBatch s b → x ∈ b ∨ x ∈ s := by
  intro b
  induction b with
  | nil => intro s h; exact Or.inr h
  | cons e rest ih =>
      intro s h
      rcases ih (setEntry e s) h with h1 | h1
      · exact Or.inl (List.mem_cons_of_mem e h1)
      · rcases mem_of_mem_setEntry h1 with h2 | h2
        · exact Or.inl (h2 ▸ List.mem_cons_self e rest)
        · exact Or.inr h2

theorem mem_applyBatch_of_mem {x : Entry} :
    ∀ (b : List Entry) (s : Store), x ∈ s → (∀ e ∈ b, x.key ≠ e.key) →
      x ∈ applyBatch s b := by
  intro b
  induction b with
  | nil => intro s hx _; exact hx
  | cons e rest ih =>
      intro s hx hk
      exact ih (setEntry e s)
        (mem_setEntry_of_ne e hx (hk e (List.mem_cons_self e rest)))
        (fun e2 he2 => hk e2 (List.mem_cons_of_mem e he2))

theorem mem_applyBatch_of_mem_batch {x : Entry} :
    ∀ (b : List Entry) (s : Store), b.Pairwise (fun a c => a.key ≠ c.key) →
      x ∈ b → x ∈ applyBatch s b := by
  intro b
  induction b with
  | nil => intro s _ hx; exact absurd hx (List.not_mem_nil x)
  | cons e rest ih =>
      intro s hp hx
      rcases List.pairwise_cons.1 hp with ⟨hhead, htail⟩
      rcases List.mem_cons.1 hx with h1 | h1
      · subst h1
        exact mem_applyBatch_of_mem rest (setEntry x s) (mem_setEntry_self x s) hhead
      · exact ih (setEntry e s) htail h1

theorem storeBatch_keys_pairwise (now ret : Nat) (ev : AuditEvent) (o : KObj) :
    (storeBatch now ret ev o).Pairwise (fun a c => a.key ≠ c.key) := by
  unfold storeBatch
  by_cases hc : ev.resourceType = "events"
  · cases hx : extractInvolvedObject o <;> simp [hc, hx]
  · simp [hc]

theorem extract_isSome_iff (o : KObj) :
    (extractInvolvedObject o).isSome ↔
      (getKind o = "Event" ∧ involvedKind o ≠ "" ∧ involvedName o ≠ "") := by
  unfold extractInvolvedObject involvedKind involvedName
  by_cases hk : getKind o = "Event"
  · simp only [hk, ne_eq, not_true_eq_false, if_false, ite_not]
    cases hm : kvLookup o "involvedObject" with
    | none => simp
    | some v =>
        cases v with
        | obj m =>
            by_cases hke : lookupStr m "kind" = "" <;>
              by_cases hne : lookupStr m "name" = "" <;>
                simp [hke, hne]
        | null => simp
        | bool b => simp
        | num n => simp
        | str s => simp
        | arr l => simp
  · simp [hk]

theorem extract_isSome_kind {o : KObj}
    (h : (extractInvolvedObject o).isSome) : getKind o = "Event" :=
  ((extract_isSome_iff o).1 h).1

theorem storeBatch_ref_iff (now ret : Nat) (ev : AuditEvent) (o : KObj) :
    (∃ e ∈ storeBatch now ret ev o, isRefEntry e) ↔
      (ev.resourceType = "events" ∧ (extractInvolvedObject o).isSome) := by
  unfold storeBatch
  by_cases hc : ev.resourceType = "events"
  · cases hx : extractInvolvedObject o with
    | none => simp [hc, hx, isRefEntry]
    | some r => simp [hc, hx, isRefEntry]
  · simp [hc, isRefEntry]

/-- Claim C1: `StoreEvent` writes, in one atomic batch, a time-index entry,
an object-index entry and — exactly when the original object is an
Event-kind object whose `involvedObject` carries a non-empty kind and a
non-empty name — a cross-reference entry; all entries carry the same
serialized value and the same expiry, the whole batch lands in the store,
and nothing else is added, so no reader can see a proper sub-batch. -/
theorem storeEvent_atomic_batch (nowT nowS ret : Nat) (o : KObj) (et : String) (s : Store)
    (ev : AuditEvent) (hev : ev = transformWatchEvent nowT o et) :
    (∀ e ∈ storeBatch nowS ret ev o,
        e.value = ev ∧ e.expiresAt = nowS + ret * 24 * 3600) ∧
    ((∃ e ∈ storeBatch nowS ret ev o, isRefEntry e) ↔
        (getKind o = "Event" ∧ involvedKind o ≠ "" ∧ involvedName o ≠ "")) ∧
    (∀ e ∈ storeBatch nowS ret ev o, e ∈ storeEvent nowS ret ev o s) ∧
    (∀ x ∈ storeEvent nowS ret ev o s, x ∈ storeBatch nowS ret ev o ∨ x ∈ s) := by
  refine ⟨?_, ?_, ?_, ?_⟩
  · intro e he
    unfold storeBatch at he
    by_cases hc : ev.resourceType = "events"
    · cases hx : extractInvolvedObject o with
      | none =>
          rw [hx] at he
          simp [hc] at he
          rcases he with rfl | rfl <;> exact ⟨rfl, rfl⟩
      | some r =>
          rw [hx] at he
          simp [hc] at he
          rcases he with rfl | rfl | rfl <;> exact ⟨rfl, rfl⟩
    · simp [hc] at he
      rcases he with rfl | rfl <;> exact ⟨rfl, rfl⟩
  · rw [storeBatch_ref_iff, extract_isSome_iff]
    constructor
    · rintro ⟨_, hk⟩
      exact hk
    · rintro ⟨hk, hrest⟩
      refine ⟨?_, hk, hrest⟩
      rw [hev]
      show kindToResourceType (getKind o) = "events"
      rw [hk]
      decide
  · intro e he
    exact mem_applyBatch_of_mem_batch _ s (storeBatch_keys_pairwise nowS ret ev o) he
  · intro x hx
    exact mem_of_mem_applyBatch _ s hx

/-- A cluster-native Event object with a valid `involvedObject`. -/
def exEventObj : KObj :=
  [ ("kind", KValue.str "Event"),
    ("metadata", KValue.obj
      [ ("name", KValue.str "e1"), ("namespace", KValue.str "default"),
        ("uid", KValue.str "u9") ]),
    ("involvedObject", KValue.obj
      [ ("kind", KValue.str "Pod"), ("namespace", KValue.str "default"),
        ("name", KValue.str "p1") ]) ]

theorem storeEvent_atomic_batch_witness :
    (∀ e ∈ storeBatch 200 14 (transformWatchEvent 100 exEventObj "ADDED") exEventObj,
        e.value = transformWatchEvent 100 exEventObj "ADDED" ∧
        e.expiresAt = 200 + 14 * 24 * 3600) ∧
    ((∃ e ∈ storeBatch 200 14 (transformWatchEvent 100 exEventObj "ADDED") exEventObj,
        isRefEntry e) ↔
      (getKind exEventObj = "Event" ∧ involvedKind exEventObj ≠ "" ∧
        involvedName exEventObj ≠ "")) ∧
    (∀ e ∈ storeBatch 200 14 (transformWatchEvent 100 exEventObj "ADDED") exEventObj,
        e ∈ storeEvent 200 14 (transformWatchEvent 100 exEventObj "ADDED") exEventObj []) ∧
    (∀ x ∈ storeEvent 200 14 (transformWatchEvent 100 exEventObj "ADDED") exEventObj [],
        x ∈ storeBatch 200 14 (transformWatchEvent 100 exEventObj "ADDED") exEventObj ∨
          x ∈ ([] : Store)) :=
  storeEvent_atomic_batch 100 200 14 exEventObj "ADDED" [] _ rfl

/-! ## Lemmas about the time-range query (`Store.QueryEvents`) -/

theorem timeLe_ts {a b : TimeRec} (h : timeLe a b) : a.ts ≤ b.ts := by
  unfold timeLe timeKeyTuple at h
  rcases (Prod.Lex.le_iff _ _).1 h with h1 | ⟨h1, _⟩
  · exact Nat.le_of_lt h1
  · exact Nat.le_of_eq h1

theorem queryLoop_sublist (opts : QueryOptions) (limit : Int) :
    ∀ (l : List TimeRec) (count : Nat),
      (queryLoop opts limit l count).Sublist (l.map (fun e => e.value)) := by
  intro l
  induction l with
  | nil =>
      intro count
      simp [queryLoop]
  | cons e rest ih =>
      intro count
      simp only [queryLoop, List.map_cons]
      by_cases h1 : limit ≤ (count : Int)
      · rw [if_pos h1]
        exact List.nil_sublist _
      · rw [if_neg h1]
        by_cases h2 : entryPastEnd opts e = true
        · rw [if_pos h2]
          exact List.nil_sublist _
        · rw [if_neg h2]
          by_cases h3 : entrySkipped opts e = true
          · rw [if_pos h3]
            exact (ih count).trans (List.sublist_cons_self e.value _)
          · rw [if_neg h3]
            exact List.Sublist.cons₂ e.value (ih (count + 1))

theorem queryLoop_bounds (opts : QueryOptions) (limit : Int) :
    ∀ (l : List TimeRec) (count : Nat),
      (∀ e ∈ l, e.value.timestamp = e.ts) →
      ∀ ev ∈ queryLoop opts limit l count,
        (∀ t0, opts.startTime = some t0 → t0 ≤ ev.timestamp) ∧
        (∀ t1, opts.endTime = some t1 → ev.timestamp ≤ t1) := by
  intro l
  induction l with
  | nil =>
      intro count _ ev hev
      simp [queryLoop] at hev
  | cons e rest ih =>
      intro count hWF ev hev
      simp only [queryLoop] at hev
      by_cases h1 : limit ≤ (count : Int)
      · rw [if_pos h1] at hev
        simp at hev
      · rw [if_neg h1] at hev
        by_cases h2 : entryPastEnd opts e = true
        · rw [if_pos h2] at hev
          simp at hev
        · rw [if_neg h2] at hev
          by_cases h3 : entrySkipped opts e = true
          · rw [if_pos h3] at hev
            exact ih count (fun x hx => hWF x (List.mem_cons_of_mem e hx)) ev hev
          · rw [if_neg h3] at hev
            rcases List.mem_cons.1 hev with rfl | hev2
            · have hts : e.value.timestamp = e.ts := hWF e (List.mem_cons_self e rest)
              constructor
              · intro t0 ht0
                unfold entrySkipped at h3
                rw [ht0] at h3
                simp only [Bool.or_eq_true, decide_eq_true_eq, not_or] at h3
                rw [hts]
                omega
              · intro t1 ht1
                unfold entryPastEnd at h2
                rw [ht1] at h2
                simp only [decide_eq_true_eq] at h2
                rw [hts]
                omega
            · exact ih (count + 1) (fun x hx => hWF x (List.mem_cons_of_mem e hx)) ev hev2

theorem queryLoop_ordered (opts : QueryOptions) (limit : Int) (l : List TimeRec) (count : Nat)
    (hsort : l.Pairwise timeLe) (hWF : ∀ e ∈ l, e.value.timestamp = e.ts) :
    (queryLoop opts limit l count).Pairwise (fun a b => a.timestamp ≤ b.timestamp) := by
  have h1 : l.Pairwise (fun a b => a.value.timestamp ≤ b.value.timestamp) :=
    hsort.imp_of_mem (fun ha hb h => by rw [hWF _ ha, hWF _ hb]; exact timeLe_ts h)
  have h2 : (l.map (fun e => e.value)).Pairwise (fun a b => a.timestamp ≤ b.timestamp) :=
    List.pairwise_map.2 h1
  exact h2.sublist (queryLoop_sublist opts limit l count)

/-- `queryEvents` unfolded to its loop over the post-seek region. -/
theorem queryEvents_eq (s : Store) (opts : QueryOptions) :
    queryEvents s opts =
      queryLoop opts (if opts.limit ≤ 0 then 1000 else opts.limit)
        (match opts.startTime with
          | none => timeRegion s
          | some t0 => (timeRegion s).dropWhile (fun e => decide (e.ts < t0))) 0 :=
  rfl

/-- Claim C2: a `QueryEvents` result has non-decreasing timestamps, and
when a start and/or end bound is supplied every returned timestamp lies
within the closed interval (both bounds inclusive).  The hypothesis — time
keys encode the timestamp of their value — is exactly what the write path
establishes (the time key is built from `event.Timestamp`). -/
theorem queryEvents_time_order (s : Store) (opts : QueryOptions)
    (hWF : ∀ e ∈ timeRegion s, e.value.timestamp = e.ts) :
    (queryEvents s opts).Pairwise (fun a b => a.timestamp ≤ b.timestamp) ∧
    (∀ ev ∈ queryEvents s opts,
      (∀ t0, opts.startTime = some t0 → t0 ≤ ev.timestamp) ∧
      (∀ t1, opts.endTime = some t1 → ev.timestamp ≤ t1)) := by
  have hsorted : (timeRegion s).Pairwise timeLe := List.sorted_insertionSort timeLe _
  have hseek : ∃ l, queryEvents s opts =
      queryLoop opts (if opts.limit ≤ 0 then 1000 else opts.limit) l 0 ∧
      l.Sublist (timeRegion s) := by
    cases hst : opts.startTime with
    | none =>
        refine ⟨timeRegion s, ?_, List.Sublist.refl _⟩
        rw [queryEvents_eq, hst]
    | some t0 =>
        refine ⟨(timeRegion s).dropWhile (fun e => decide (e.ts < t0)), ?_,
          List.dropWhile_sublist _⟩
        rw [queryEvents_eq, hst]
  obtain ⟨l, heq, hsub⟩ := hseek
  have hWF2 : ∀ e ∈ l, e.value.timestamp = e.ts := fun e he => hWF e (hsub.subset he)
  rw [heq]
  exact ⟨queryLoop_ordered _ _ _ _ (hsorted.sublist hsub) hWF2,
    queryLoop_bounds _ _ _ _ hWF2⟩

/-- Two sample audit events for concrete query evaluation. -/
def exEv1 : AuditEvent :=
  { timestamp := 10, verb := "create", user := "system:k8s-watcher"
    nspace := "default", resourceType := "pods", resourceName := "p1"
    responseStatus := 200, message := "", objectChanges := [], annots := []
    stage := "ResponseComplete", requestURI := "", sourceIPs := [] }

def exEv2 : AuditEvent :=
  { exEv1 with timestamp := 20, resourceName := "p2" }

/-- A concrete store with two time-index entries (out of key order, to
exercise the sorted iteration). -/
def exStore : Store :=
  [ { key := IndexKey.timeK 20 "default" "pods" "p2" "u2", value := exEv2, expiresAt := 99 },
    { key := IndexKey.timeK 10 "default" "pods" "p1" "u1", value := exEv1, expiresAt := 99 } ]

def exOpts : QueryOptions :=
  { startTime := some 5, endTime := some 30, nspace := "", resourceType := ""
    resourceName := "", verb := "", user := "", limit := 10 }

theorem queryEvents_time_order_witness :
    (queryEvents exStore exOpts).Pairwise (fun a b => a.timestamp ≤ b.timestamp) ∧
    (∀ ev ∈ queryEvents exStore exOpts,
      (∀ t0, exOpts.startTime = some t0 → t0 ≤ ev.timestamp) ∧
      (∀ t1, exOpts.endTime = some t1 → ev.timestamp ≤ t1)) :=
  queryEvents_time_order exStore exOpts (by decide)

/-! ## Lemmas for the limit clamp (`handleQueryEvents`) -/

theorem queryLoop_length (opts : QueryOptions) (limit : Int) :
    ∀ (l : List TimeRec) (count : Nat),
      ((queryLoop opts limit l count).length : Int) ≤ max (limit - count) 0 := by
  intro l
  induction l with
  | nil =>
      intro count
      simp [queryLoop]
  | cons e rest ih =>
      intro count
      simp only [queryLoop]
      by_cases h1 : limit ≤ (count : Int)
      · rw [if_pos h1]
        simp
      · rw [if_neg h1]
        by_cases h2 : entryPastEnd opts e = true
        · rw [if_pos h2]
          simp
        · rw [if_neg h2]
          by_cases h3 : entrySkipped opts e = true
          · rw [if_pos h3]
            exact ih count
          · rw [if_neg h3]
            have := ih (count + 1)
            simp only [List.length_cons]
            push_cast at this ⊢
            omega

theorem queryEvents_length_le (s : Store) (opts : QueryOptions) (hl : 0 < opts.limit) :
    ((queryEvents s opts).length : Int) ≤ opts.limit := by
  rw [queryEvents_eq]
  rw [if_neg (by omega : ¬ opts.limit ≤ 0)]
  have := queryLoop_length opts opts.limit
    (match opts.startTime with
      | none => timeRegion s
      | some t0 => (timeRegion s).dropWhile (fun e => decide (e.ts < t0))) 0
  omega

/-- Claim C5: the effective limit is the requested limit exactly when that
is a positive integer strictly below the configured maximum and the
configured maximum otherwise (unset included); the query returns at most
that many records; and `X-Has-More` is true iff the returned count equals
the effective limit. -/
theorem handleQuery_limit_clamp (maxLimit : Int) (hpos : 0 < maxLimit)
    (requested : Option Int) (s : Store) (opts0 : QueryOptions) :
    ((requested = none → effectiveLimit maxLimit requested = maxLimit) ∧
     (∀ p, requested = some p →
        ((0 < p ∧ p < maxLimit) → effectiveLimit maxLimit requested = p) ∧
        (¬(0 < p ∧ p < maxLimit) → effectiveLimit maxLimit requested = maxLimit))) ∧
    ((queryEvents s { opts0 with limit := effectiveLimit maxLimit requested }).length : Int)
        ≤ effectiveLimit maxLimit requested ∧
    (hasMore (queryEvents s { opts0 with limit := effectiveLimit maxLimit requested }).length
        (effectiveLimit maxLimit requested) = true ↔
      ((queryEvents s { opts0 with limit := effectiveLimit maxLimit requested }).length : Int)
        = effectiveLimit maxLimit requested) := by
  have hlim : 0 < effectiveLimit maxLimit requested := by
    cases requested with
    | none => exact hpos
    | some p =>
        show 0 < if 0 < p ∧ p < maxLimit then p else maxLimit
        by_cases hp : 0 < p ∧ p < maxLimit
        · rw [if_pos hp]
          exact hp.1
        · rw [if_neg hp]
          exact hpos
  have hlen : ((queryEvents s { opts0 with limit := effectiveLimit maxLimit requested }).length : Int)
      ≤ effectiveLimit maxLimit requested :=
    queryEvents_length_le s { opts0 with limit := effectiveLimit maxLimit requested } hlim
  refine ⟨⟨?_, ?_⟩, hlen, ?_⟩
  · intro h
    rw [h]
    rfl
  · intro p hp
    rw [hp]
    constructor
    · intro hcond
      show (if 0 < p ∧ p < maxLimit then p else maxLimit) = p
      rw [if_pos hcond]
    · intro hcond
      show (if 0 < p ∧ p < maxLimit then p else maxLimit) = maxLimit
      rw [if_neg hcond]
  · unfold hasMore
    simp only [decide_eq_true_eq]
    omega

theorem handleQuery_limit_clamp_witness :
    ((some (5 : Int) = none → effectiveLimit 2 (some 5) = 2) ∧
     (∀ p, some (5 : Int) = some p →
        ((0 < p ∧ p < 2) → effectiveLimit 2 (some 5) = p) ∧
        (¬(0 < p ∧ p < 2) → effectiveLimit 2 (some 5) = 2))) ∧
    ((queryEvents exStore { exOpts with limit := effectiveLimit 2 (some 5) }).length : Int)
        ≤ effectiveLimit 2 (some 5) ∧
    (hasMore (queryEvents exStore { exOpts with limit := effectiveLimit 2 (some 5) }).length
        (effectiveLimit 2 (some 5)) = true ↔
      ((queryEvents exStore { exOpts with limit := effectiveLimit 2 (some 5) }).length : Int)
        = effectiveLimit 2 (some 5)) :=
  handleQuery_limit_clamp 2 (by decide) (some 5) exStore exOpts

/-! ## Lemmas about the object index (`Store.GetObjectHistory`) -/

/-- The object-index record `storeEvent` writes for an input pair. -/
def mkObjRec (now ret : Nat) (p : AuditEvent × KObj) : ObjRec :=
  { ns := p.1.nspace, rt := p.1.resourceType, name := p.1.resourceName
    ts := p.1.timestamp, uid := getUID p.2, value := p.1
    expiresAt := now + ret * 24 * 3600 }

/-- The bag of object-index records of a store. -/
def objBag (s : Store) : List ObjRec := s.filterMap toObjRec

theorem toObjRec_key {e : Entry} {r : ObjRec} (h : toObjRec e = some r) :
    e.key = IndexKey.objK r.ns r.rt r.name r.ts r.uid := by
  unfold toObjRec at h
  cases hk : e.key with
  | objK ns rt name ts uid =>
      rw [hk] at h
      simp at h
      rw [← h]
  | timeK ts ns rt name uid =>
      rw [hk] at h
      simp at h
  | refK ns kind name ts uid =>
      rw [hk] at h
      simp at h

theorem objBag_setEntry (e : Entry) (s : Store) :
    objBag (setEntry e s) =
      (toObjRec e).toList ++ objBag (s.filter (fun x => !(x.key == e.key))) := by
  unfold objBag setEntry
  cases he : toObjRec e <;> simp [List.filterMap_cons, he]

theorem objBag_filter_preserve (k : IndexKey) :
    ∀ (s : Store), (∀ x ∈ s, toObjRec x = none ∨ x.key ≠ k) →
      objBag (s.filter (fun x => !(x.key == k))) = objBag s := by
  intro s
  induction s with
  | nil => intro _; rfl
  | cons x rest ih =>
      intro h
      have hrest := fun y hy => h y (List.mem_cons_of_mem x hy)
      have ih2 : List.filterMap toObjRec (List.filter (fun z => !(z.key == k)) rest)
          = List.filterMap toObjRec rest := ih hrest
      by_cases hxk : x.key = k
      · have hnone : toObjRec x = none := by
          rcases h x (List.mem_cons_self x rest) with h1 | h1
          · exact h1
          · exact absurd hxk h1
        simp [objBag, List.filter_cons, hxk, List.filterMap_cons, hnone, ih2]
      · simp only [objBag, List.filter_cons]
        have hb : (x.key == k) = false := by simp [hxk]
        rw [hb]
        simp only [Bool.not_false, if_pos]
        cases hx : toObjRec x <;>
          simp [List.filterMap_cons, hx, ih2]

theorem objBag_setEntry_timeK (ts : Nat) (ns rt name uid : String) (v : AuditEvent)
    (ex : Nat) (s : Store) :
    objBag (setEntry { key := IndexKey.timeK ts ns rt name uid, value := v, expiresAt := ex } s)
      = objBag s := by
  rw [objBag_setEntry]
  have h0 : toObjRec { key := IndexKey.timeK ts ns rt name uid, value := v, expiresAt := ex } =
      none := rfl
  rw [h0]
  simp only [Option.toList_none, List.nil_append]
  apply objBag_filter_preserve
  intro x hx
  cases hxr : toObjRec x with
  | none => exact Or.inl rfl
  | some r =>
      refine Or.inr ?_
      rw [toObjRec_key hxr]
      simp

theorem objBag_setEntry_refK (ns kind name : String) (ts : Nat) (uid : String)
    (v : AuditEvent) (ex : Nat) (s : Store) :
    objBag (setEntry { key := IndexKey.refK ns kind name ts uid, value := v, expiresAt := ex } s)
      = objBag s := by
  rw [objBag_setEntry]
  have h0 : toObjRec { key := IndexKey.refK ns kind name ts uid, value := v, expiresAt := ex } =
      none := rfl
  rw [h0]
  simp only [Option.toList_none, List.nil_append]
  apply objBag_filter_preserve
  intro x hx
  cases hxr : toObjRec x with
  | none => exact Or.inl rfl
  | some r =>
      refine Or.inr ?_
      rw [toObjRec_key hxr]
      simp

theorem objBag_setEntry_objK {e : Entry} {r : ObjRec} (s : Store)
    (he : toObjRec e = some r) (hfresh : ∀ x ∈ s, x.key ≠ e.key) :
    objBag (setEntry e s) = r :: objBag s := by
  rw [objBag_setEntry, he]
  simp only [Option.toList_some, List.singleton_append, List.cons.injEq, true_and]
  apply objBag_filter_preserve
  intro x hx
  exact Or.inr (hfresh x hx)

theorem storeBatch_key_shapes (now ret : Nat) (ev : AuditEvent) (o : KObj) :
    ∀ x ∈ storeBatch now ret ev o,
      (∃ ts ns rt nm uid, x.key = IndexKey.timeK ts ns rt nm uid) ∨
      x.key = objKeyOf ev o ∨
      (∃ ns k nm ts uid, x.key = IndexKey.refK ns k nm ts uid) := by
  intro x hx
  unfold storeBatch at hx
  by_cases hc : ev.resourceType = "events"
  · cases hr : extractInvolvedObject o with
    | none =>
        rw [hr] at hx
        simp [hc] at hx
        rcases hx with rfl | rfl
        · exact Or.inl ⟨_, _, _, _, _, rfl⟩
        · refine Or.inr (Or.inl ?_)
          simp [objKeyOf, hc]
    | some r =>
        rw [hr] at hx
        simp [hc] at hx
        rcases hx with rfl | rfl | rfl
        · exact Or.inl ⟨_, _, _, _, _, rfl⟩
        · refine Or.inr (Or.inl ?_)
          simp [objKeyOf, hc]
        · exact Or.inr (Or.inr ⟨_, _, _, _, _, rfl⟩)
  · simp [hc] at hx
    rcases hx with rfl | rfl
    · exact Or.inl ⟨_, _, _, _, _, rfl⟩
    · exact Or.inr (Or.inl rfl)

theorem objBag_storeEvent (now ret : Nat) (ev : AuditEvent) (o : KObj) (s : Store)
    (hfresh : ∀ x ∈ s, x.key ≠ objKeyOf ev o) :
    objBag (storeEvent now ret ev o s) = mkObjRec now ret (ev, o) :: objBag s := by
  have hobj : toObjRec
      { key := IndexKey.objK ev.nspace ev.resourceType ev.resourceName ev.timestamp (getUID o)
        value := ev, expiresAt := now + ret * 24 * 3600 } = some (mkObjRec now ret (ev, o)) := rfl
  have hfresh1 : ∀ x ∈ setEntry
      { key := IndexKey.timeK ev.timestamp ev.nspace ev.resourceType ev.resourceName (getUID o)
        value := ev, expiresAt := now + ret * 24 * 3600 } s,
      x.key ≠ IndexKey.objK ev.nspace ev.resourceType ev.resourceName ev.timestamp (getUID o) := by
    intro x hx
    rcases mem_of_mem_setEntry hx with rfl | hx2
    · simp
    · exact hfresh x hx2
  simp only [storeEvent, storeBatch, applyBatch]
  by_cases hc : ev.resourceType = "events"
  · rw [if_pos hc]
    cases hr : extractInvolvedObject o with
    | none =>
        simp only [List.append_nil, List.foldl_cons, List.foldl_nil]
        rw [objBag_setEntry_objK _ hobj hfresh1, objBag_setEntry_timeK]
    | some r =>
        simp only [List.cons_append, List.nil_append, List.append_nil,
          List.foldl_cons, List.foldl_nil]
        rw [objBag_setEntry_refK]
        rw [objBag_setEntry_objK _ hobj hfresh1, objBag_setEntry_timeK]
  · rw [if_neg hc]
    simp only [List.append_nil, List.foldl_cons, List.foldl_nil]
    rw [objBag_setEntry_objK _ hobj hfresh1, objBag_setEntry_timeK]

theorem objBag_storeAll_gen (now ret : Nat) :
    ∀ (inputs : List (AuditEvent × KObj)) (s0 : Store),
      (inputs.map (fun p => objKeyOf p.1 p.2)).Pairwise (fun a b => a ≠ b) →
      (∀ x ∈ s0, ∀ p ∈ inputs, x.key ≠ objKeyOf p.1 p.2) →
      objBag (inputs.foldl (fun st p => storeEvent now ret p.1 p.2 st) s0)
        = (inputs.map (mkObjRec now ret)).reverse ++ objBag s0 := by
  intro inputs
  induction inputs with
  | nil =>
      intro s0 _ _
      simp
  | cons p rest ih =>
      intro s0 hpw hfresh
      rw [List.map_cons, List.pairwise_cons] at hpw
      obtain ⟨hhead, htail⟩ := hpw
      rw [List.foldl_cons]
      have hfresh2 : ∀ x ∈ storeEvent now ret p.1 p.2 s0, ∀ q ∈ rest,
          x.key ≠ objKeyOf q.1 q.2 := by
        intro x hx q hq
        rcases mem_of_mem_applyBatch _ s0 hx with hb | hs
        · rcases storeBatch_key_shapes now ret p.1 p.2 x hb with ⟨_, _, _, _, _, hk⟩ | hk |
            ⟨_, _, _, _, _, hk⟩
          · rw [hk]
            simp [objKeyOf]
          · rw [hk]
            exact hhead _ (List.mem_map.2 ⟨q, hq, rfl⟩)
          · rw [hk]
            simp [objKeyOf]
        · exact hfresh x hs q (List.mem_cons_of_mem p hq)
      rw [ih (storeEvent now ret p.1 p.2 s0) htail hfresh2]
      rw [objBag_storeEvent now ret p.1 p.2 s0
        (fun x hx => hfresh x hx p (List.mem_cons_self p rest))]
      simp

theorem objBag_storeAll (now ret : Nat) (inputs : List (AuditEvent × KObj))
    (hnd : (inputs.map (fun p => objKeyOf p.1 p.2)).Pairwise (fun a b => a ≠ b)) :
    objBag (storeAll now ret inputs) = (inputs.map (mkObjRec now ret)).reverse := by
  unfold storeAll
  rw [objBag_storeAll_gen now ret inputs [] hnd (by intro x hx; exact absurd hx (List.not_mem_nil x))]
  simp [objBag]

theorem objLe_ts {a b : ObjRec} (hns : a.ns = b.ns) (hrt : a.rt = b.rt)
    (hnm : a.name = b.name) (h : objLe a b) : a.ts ≤ b.ts := by
  unfold objLe objKeyTuple at h
  rcases (Prod.Lex.le_iff _ _).1 h with h1 | ⟨_, h2⟩
  · rw [hns] at h1
    exact absurd h1 (lt_irrefl _)
  · rcases (Prod.Lex.le_iff _ _).1 h2 with h3 | ⟨_, h4⟩
    · rw [hrt] at h3
      exact absurd h3 (lt_irrefl _)
    · rcases (Prod.Lex.le_iff _ _).1 h4 with h5 | ⟨_, h6⟩
      · rw [hnm] at h5
        exact absurd h5 (lt_irrefl _)
      · rcases (Prod.Lex.le_iff _ _).1 h6 with h7 | ⟨h7, _⟩
        · exact le_of_lt h7
        · exact le_of_eq h7

theorem filter_map_mkObjRec (now ret : Nat) (ns rt nm : String) :
    ∀ inputs : List (AuditEvent × KObj),
      ((inputs.map (mkObjRec now ret)).filter
          (fun e => e.ns == ns && e.rt == rt && e.name == nm)).map (fun e => e.value)
        = (inputs.filter (fun p => p.1.nspace == ns && p.1.resourceType == rt &&
            p.1.resourceName == nm)).map (fun p => p.1) := by
  intro inputs
  induction inputs with
  | nil => rfl
  | cons p rest ih =>
      simp only [List.map_cons, List.filter_cons, mkObjRec]
      by_cases hc : (p.1.nspace == ns && p.1.resourceType == rt && p.1.resourceName == nm) = true
      · rw [hc]
        simp only [if_pos, List.map_cons]
        rw [ih]
      · rw [Bool.not_eq_true] at hc
        rw [hc]
        simp only [Bool.false_eq_true, if_false, ite_false]
        exact ih

/-- Claim C3: for any `(namespace, resourceType, name)` triple,
`GetObjectHistory` over a store built by a sequence of `StoreEvent` calls
with pairwise-distinct object keys returns exactly the events stored for
that triple — as a permutation, neither more nor fewer — in non-decreasing
timestamp order. -/
theorem getObjectHistory_complete (now ret : Nat) (inputs : List (AuditEvent × KObj))
    (ns rt nm : String)
    (hnd : (inputs.map (fun p => objKeyOf p.1 p.2)).Pairwise (fun a b => a ≠ b)) :
    (getObjectHistory (storeAll now ret inputs) ns rt nm).Perm
      ((inputs.filter (fun p => p.1.nspace == ns && p.1.resourceType == rt &&
          p.1.resourceName == nm)).map (fun p => p.1)) ∧
    (getObjectHistory (storeAll now ret inputs) ns rt nm).Pairwise
      (fun a b => a.timestamp ≤ b.timestamp) := by
  have hbag : objBag (storeAll now ret inputs) = (inputs.map (mkObjRec now ret)).reverse :=
    objBag_storeAll now ret inputs hnd
  have hts : ∀ x ∈ objBag (storeAll now ret inputs), x.value.timestamp = x.ts := by
    rw [hbag]
    intro x hx
    obtain ⟨p, hp, rfl⟩ := List.mem_map.1 (List.mem_reverse.1 hx)
    rfl
  constructor
  · unfold getObjectHistory objRegion
    refine (((List.perm_insertionSort objLe _).filter _).map _).trans ?_
    rw [show (storeAll now ret inputs).filterMap toObjRec = objBag (storeAll now ret inputs)
      from rfl]
    rw [hbag]
    refine (((List.reverse_perm (inputs.map (mkObjRec now ret))).filter _).map _).trans ?_
    rw [filter_map_mkObjRec]
  · unfold getObjectHistory objRegion
    have hsorted : (List.insertionSort objLe
        ((storeAll now ret inputs).filterMap toObjRec)).Pairwise objLe :=
      List.sorted_insertionSort objLe _
    have hfil := hsorted.sublist (List.filter_sublist
      (p := fun e => e.ns == ns && e.rt == rt && e.name == nm) _)
    have hmem : ∀ x ∈ (List.insertionSort objLe
          ((storeAll now ret inputs).filterMap toObjRec)).filter
          (fun e => e.ns == ns && e.rt == rt && e.name == nm),
        (x.ns = ns ∧ x.rt = rt ∧ x.name = nm) ∧ x.value.timestamp = x.ts := by
      intro x hx
      have h1 := (List.mem_filter.1 hx).2
      simp only [Bool.and_eq_true, beq_iff_eq] at h1
      refine ⟨⟨h1.1.1, h1.1.2, h1.2⟩, ?_⟩
      exact hts x ((List.mem_insertionSort objLe).1 (List.mem_filter.1 hx).1)
    refine List.pairwise_map.2 (hfil.imp_of_mem ?_)
    intro a b ha hb h
    obtain ⟨⟨hans, hart, hanm⟩, hats⟩ := hmem a ha
    obtain ⟨⟨hbns, hbrt, hbnm⟩, hbts⟩ := hmem b hb
    rw [hats, hbts]
    exact objLe_ts (by rw [hans, hbns]) (by rw [hart, hbrt]) (by rw [hanm, hbnm]) h

/-- A plain Pod object for the object-history witness. -/
def exPodObj : KObj :=
  [ ("kind", KValue.str "Pod"),
    ("metadata", KValue.obj
      [ ("name", KValue.str "p1"), ("namespace", KValue.str "default"),
        ("uid", KValue.str "u1") ]) ]

/-- Two stored mutations of the same Pod, at distinct timestamps. -/
def exInputs : List (AuditEvent × KObj) :=
  [(exEv1, exPodObj), ({ exEv1 with timestamp := 20, verb := "update" }, exPodObj)]

theorem getObjectHistory_complete_witness :
    (getObjectHistory (storeAll 0 14 exInputs) "default" "pods" "p1").Perm
      ((exInputs.filter (fun p => p.1.nspace == "default" && p.1.resourceType == "pods" &&
          p.1.resourceName == "p1")).map (fun p => p.1)) ∧
    (getObjectHistory (storeAll 0 14 exInputs) "default" "pods" "p1").Pairwise
      (fun a b => a.timestamp ≤ b.timestamp) :=
  getObjectHistory_complete 0 14 exInputs "default" "pods" "p1" (by decide)

/-! ## The two-section history handler (`handleObjectHistory`) -/

/-- Claim C7: with non-empty path parameters, the history handler signals
NotFound exactly when both the watch-events section and the related-events
section are empty; in every other case it returns the two-section
structure carrying exactly those sections, even when one is empty. -/
theorem handleObjectHistory_notFound_iff (s : Store) (ns rt name : String)
    (hns : ns ≠ "") (hrt : rt ≠ "") (hname : name ≠ "") :
    (handleObjectHistory s ns rt name = HistoryResult.notFound ↔
      (getObjectHistory s ns rt name = [] ∧
       getRelatedEvents s ns (resourceTypeToKind rt) name = [])) ∧
    (¬(getObjectHistory s ns rt name = [] ∧
       getRelatedEvents s ns (resourceTypeToKind rt) name = []) →
      handleObjectHistory s ns rt name =
        HistoryResult.ok
          { nspace := ns, resourceType := rt, resourceName := name
            watchEvents := getObjectHistory s ns rt name
            relatedEvents := getRelatedEvents s ns (resourceTypeToKind rt) name }) := by
  have hvalid : ¬(ns = "" ∨ rt = "" ∨ name = "") := by
    push_neg
    exact ⟨hns, hrt, hname⟩
  unfold handleObjectHistory
  rw [if_neg hvalid]
  by_cases hcase : (getObjectHistory s ns rt name).length = 0 ∧
      (getRelatedEvents s ns (resourceTypeToKind rt) name).length = 0
  · rw [if_pos hcase]
    refine ⟨⟨fun _ => ⟨List.length_eq_zero.1 hcase.1, List.length_eq_zero.1 hcase.2⟩,
      fun _ => rfl⟩, fun hne => ?_⟩
    exact absurd ⟨List.length_eq_zero.1 hcase.1, List.length_eq_zero.1 hcase.2⟩ hne
  · rw [if_neg hcase]
    refine ⟨⟨fun h => ?_, fun hboth => ?_⟩, fun _ => rfl⟩
    · exact absurd h (by simp)
    · exact absurd ⟨by rw [hboth.1]; rfl, by rw [hboth.2]; rfl⟩ hcase

/-- A store holding one cross-reference entry about Pod `default/p1`. -/
def exRefStore : Store :=
  [ { key := IndexKey.refK "default" "Pod" "p1" 10 "u9", value := exEv1, expiresAt := 99 } ]

theorem handleObjectHistory_notFound_iff_witness :
    (handleObjectHistory exRefStore "default" "pods" "p1" = HistoryResult.notFound ↔
      (getObjectHistory exRefStore "default" "pods" "p1" = [] ∧
       getRelatedEvents exRefStore "default" (resourceTypeToKind "pods") "p1" = [])) ∧
    (¬(getObjectHistory exRefStore "default" "pods" "p1" = [] ∧
       getRelatedEvents exRefStore "default" (resourceTypeToKind "pods") "p1" = []) →
      handleObjectHistory exRefStore "default" "pods" "p1" =
        HistoryResult.ok
          { nspace := "default", resourceType := "pods", resourceName := "p1"
            watchEvents := getObjectHistory exRefStore "default" "pods" "p1"
            relatedEvents := getRelatedEvents exRefStore "default"
              (resourceTypeToKind "pods") "p1" }) :=
  handleObjectHistory_notFound_iff exRefStore "default" "pods" "p1"
    (by decide) (by decide) (by decide)

/-! ## Lemmas about map operations (for the `cleanObject` claims) -/

theorem kvLookup_delKey (m : KObj) (k a : String) :
    kvLookup (delKey m a) k = if k = a then none else kvLookup m k := by
  induction m with
  | nil => simp [delKey, kvLookup]
  | cons p rest ih =>
      by_cases hpa : p.1 = a
      · have : (p.1 == a) = true := by simp [hpa]
        simp [delKey, List.filter, this] at ih ⊢
        rw [ih]
        by_cases hka : k = a
        · simp [hka]
        · have hpk : ¬ p.1 = k := by
            intro h
            exact hka (by rw [← h, hpa])
          simp [hka, kvLookup, hpk]
      · have : (p.1 == a) = false := by simp [hpa]
        simp [delKey, List.filter, this] at ih ⊢
        by_cases hpk : p.1 = k
        · have hka : ¬ k = a := by
            intro h
            exact hpa (by rw [hpk, h])
          simp [kvLookup, hpk, hka]
        · simp [kvLookup, hpk, ih]

theorem kvLookup_setField_self (m : KObj) (k : String) (v : KValue) :
    kvLookup (setField m k v) k = (kvLookup m k).map (fun _ => v) := by
  induction m with
  | nil => rfl
  | cons p rest ih =>
      simp only [setField, List.map_cons] at ih ⊢
      by_cases hpk : p.1 = k
      · rw [if_pos hpk]
        simp [kvLookup, hpk]
      · rw [if_neg hpk]
        simp [kvLookup, hpk, ih]

theorem kvLookup_setField_ne (m : KObj) (k k2 : String) (v : KValue) (h : k2 ≠ k) :
    kvLookup (setField m k v) k2 = kvLookup m k2 := by
  induction m with
  | nil => rfl
  | cons p rest ih =>
      simp only [setField, List.map_cons] at ih ⊢
      by_cases hpk : p.1 = k
      · have hp2 : ¬ p.1 = k2 := fun hc => h (by rw [← hc, hpk])
        rw [if_pos hpk]
        simp [kvLookup, hp2, ih]
      · rw [if_neg hpk]
        by_cases hp2 : p.1 = k2 <;> simp [kvLookup, hp2, ih]

theorem kvLookup_strip (m : KObj) (k : String) :
    kvLookup (delKey (delKey (delKey (delKey (delKey m
        "managedFields") "resourceVersion") "generation") "selfLink") "uid") k
      = if k ∈ strippedKeys then none else kvLookup m k := by
  rw [kvLookup_delKey, kvLookup_delKey, kvLookup_delKey, kvLookup_delKey, kvLookup_delKey]
  simp only [strippedKeys, List.mem_cons, List.not_mem_nil, or_false]
  split_ifs <;> simp_all

/-- Claim C6: the cleaned `objectChanges` payload has
`metadata.managedFields`, `metadata.resourceVersion`, `metadata.generation`,
`metadata.selfLink` and `metadata.uid` absent, every other metadata field
and every non-`metadata` top-level field of the input preserved
structurally; the input itself is untouched (the Go code strips a
`DeepCopy`, which the pure function models). -/
theorem cleanObject_strips_exactly (o : KObj) :
    (∀ k ∈ strippedKeys, metaLookup (cleanObject o) k = none) ∧
    (∀ k, k ∉ strippedKeys → metaLookup (cleanObject o) k = metaLookup o k) ∧
    (∀ k, k ≠ "metadata" → kvLookup (cleanObject o) k = kvLookup o k) := by
  cases hm : kvLookup o "metadata" with
  | none =>
      refine ⟨?_, ?_, ?_⟩ <;> simp [cleanObject, metaLookup, hm]
  | some v =>
      cases v with
      | obj m =>
          have hclean : cleanObject o = setField o "metadata"
              (KValue.obj (delKey (delKey (delKey (delKey (delKey m
                "managedFields") "resourceVersion") "generation") "selfLink") "uid")) := by
            simp [cleanObject, hm]
          have hmeta : kvLookup (cleanObject o) "metadata"
              = some (KValue.obj (delKey (delKey (delKey (delKey (delKey m
                "managedFields") "resourceVersion") "generation") "selfLink") "uid")) := by
            rw [hclean, kvLookup_setField_self, hm]
            rfl
          refine ⟨?_, ?_, ?_⟩
          · intro k hk
            simp [metaLookup, hmeta, kvLookup_strip, hk]
          · intro k hk
            simp [metaLookup, hmeta, kvLookup_strip, hk, hm]
          · intro k hk
            rw [hclean, kvLookup_setField_ne _ _ _ _ hk]
      | null => refine ⟨?_, ?_, ?_⟩ <;> simp [cleanObject, metaLookup, hm]
      | bool b => refine ⟨?_, ?_, ?_⟩ <;> simp [cleanObject, metaLookup, hm]
      | num n => refine ⟨?_, ?_, ?_⟩ <;> simp [cleanObject, metaLookup, hm]
      | str s => refine ⟨?_, ?_, ?_⟩ <;> simp [cleanObject, metaLookup, hm]
      | arr l => refine ⟨?_, ?_, ?_⟩ <;> simp [cleanObject, metaLookup, hm]

/-- A sample object for evaluating `cleanObject`. -/
def exObj : KObj :=
  [ ("kind", KValue.str "Pod"),
    ("metadata", KValue.obj
      [ ("name", KValue.str "p1"), ("uid", KValue.str "u1"),
        ("resourceVersion", KValue.str "5"),
        ("labels", KValue.obj [("app", KValue.str "x")]) ]),
    ("spec", KValue.obj []) ]

theorem cleanObject_strips_exactly_witness :
    metaLookup (cleanObject exObj) "uid" = none ∧
    metaLookup (cleanObject exObj) "name" = metaLookup exObj "name" ∧
    kvLookup (cleanObject exObj) "spec" = kvLookup exObj "spec" :=
  ⟨(cleanObject_strips_exactly exObj).1 "uid" (by decide),
   (cleanObject_strips_exactly exObj).2.1 "name" (by decide),
   (cleanObject_strips_exactly exObj).2.2 "spec" (by decide)⟩

/-- Claim C4: the pluralization round trip `kind → resourceType → kind`
fails on kinds handled by the general rules.  `Service` is not in the
irregular table; the forward map sends it to `services`, and the Query
API inverse map sends `services` to `Servic` (its `es`-trimming rule
fires on kinds ending in `e`), so the composition is not the identity. -/
theorem pluralization_roundtrip_fails :
    lookupTable irregularPlurals "service" = none ∧
    kindToResourceType "Service" = "services" ∧
    resourceTypeToKind "services" = "Servic" ∧
    ("Servic" : String) ≠ "Service" :=
  ⟨by decide, by decide, by decide, by decide⟩

/-- A server whose store handle has been closed. -/
def closedServer : Server :=
  { store := { entries := [], isOpen := false }, maxLimit := 1000 }

/-- Claim C8 counterexample: with the store not open, `handleHealth` still
reports success (HTTP 200), so health does not hold iff the store is
open. -/
theorem health_ok_with_closed_store :
    closedServer.store.isOpen = false ∧ (handleHealth closedServer).status = 200 :=
  ⟨rfl, rfl⟩

/-- Claim C8 amended: `handleHealth` returns success (200, body
`{"status":"healthy"}`) unconditionally, regardless of the state of the
store. -/
theorem handleHealth_always_ok (srv : Server) :
    handleHealth srv = { status := 200, body := [("status", "healthy")] } :=
  rfl

/-- Claim C9: evaluation of the `LoadConfig` defaults on a configuration
file that sets no field.  The four documented defaults `retentionDays`,
`serverPort`, `maxQueryLimit` and `storagePath` are applied, but
`discoverCRDs` is left at the decoded `false`: the code never defaults it
to `true`. -/
theorem applyDefaults_zero_config :
    applyDefaults zeroConfig =
      { resources := [], discoverCRDs := false, storagePath := "/data/watch-events"
        retentionDays := 14, serverPort := 8080, maxQueryLimit := 1000 } ∧
    (applyDefaults zeroConfig).discoverCRDs ≠ true :=
  ⟨rfl, by decide⟩

/-- Claim C10: in the pod-issue classifier, a text containing `configmap`
is classified as a config/secret issue regardless of `not found`, while a
text without `configmap` but with `secret` is classified exactly when it
also contains `not found` — the `&&` binds tighter than the `||`. -/
theorem podIssue_configmap_or_secret (s : String) :
    (strHas s "configmap" = true → isConfigIssue s = true) ∧
    (strHas s "configmap" = false →
      (isConfigIssue s = true ↔ strHas s "secret" = true ∧ strHas s "not found" = true)) := by
  constructor
  · intro h
    simp [isConfigIssue, h]
  · intro h
    simp [isConfigIssue, h]

theorem podIssue_configmap_or_secret_witness :
    strHas "mount secret vol was not found" "configmap" = false ∧
    (isConfigIssue "mount secret vol was not found" = true ↔
      strHas "mount secret vol was not found" "secret" = true ∧
      strHas "mount secret vol was not found" "not found" = true) :=
  ⟨by decide,
   (podIssue_configmap_or_secret "mount secret vol was not found").2 (by decide)⟩

end Ripkit
